import Mathlib

/-!
Verification development for the Input / InputScheme fetcher core
(`src/libfetchers/fetchers.hh`): the attribute-bag data model, the
`InputScheme` capability record, the `Input` descriptor and the
resolution / override / lock-check / fetch pipeline.

The repository ships only the header `fetchers.hh`; the member-function
bodies live in a translation unit that is not among the shown sources.
Whatever the header itself decides (field layout, default member values,
default arguments, inline virtual defaults) is embedded from the header;
the remaining operation bodies are modelled from the specification, each
marked `Modelled from the spec:` in its doc comment.
-/

set_option autoImplicit false

namespace Fetchers

/-- Tag for the `type` discriminator attribute that names the bound scheme. -/
def typeKey : String := "type"

/-- Scalar attribute value: string, integer or boolean (the `Attr`
variant type of `attrs.hh`, as described by the Attribute Bag data
model of the spec). -/
inductive AttrValue where
  | str (s : String)
  | int (n : Int)
  | boolean (b : Bool)
  deriving DecidableEq

/-- Attribute bag: a string-keyed map of scalar values (`Attrs` in the
source), embedded as an association list. -/
abbrev Attrs := List (String × AttrValue)

/-- First value bound to `key`, if any (map lookup). -/
def lookupAttr {α : Type} : List (String × α) → String → Option α
  | [], _ => none
  | (k, v) :: rest, key => if k = key then some v else lookupAttr rest key

/-- Map update: bind `key` to `v`, replacing an existing binding. -/
def insertAttr (key : String) (v : AttrValue) : Attrs → Attrs
  | [] => [(key, v)]
  | (k, w) :: rest =>
      if k = key then (key, v) :: rest else (k, w) :: insertAttr key v rest

/-- True when no attribute name occurs twice in the bag; every bag held
by a C++ `std::map` satisfies this. -/
def distinctKeys (as : Attrs) : Bool := (as.map Prod.fst).Nodup

/-- Structured URL: scheme token, authority, path, ordered query
parameters, fragment (`ParsedURL` of `url.hh` as described by the spec). -/
structure ParsedURL where
  urlScheme : String
  authority : String := ""
  path : String := ""
  query : List (String × String) := []
  fragment : String := ""
  deriving DecidableEq

/-- Per-attribute metadata of a scheme, with the default member values of
`InputScheme::AttributeInfo` in the header: type `"String"`, required,
empty documentation. -/
structure AttributeInfo where
  type : String := "String"
  required : Bool := true
  doc : String := ""
  deriving DecidableEq

/-- Errors of the error taxonomy of the core pipeline (spec section 7). -/
inductive FetchError where
  | unrecognizedURL
  | unknownInputType (t : String)
  | invalidAttribute (name : String)
  | missingScheme
  | overrideUnsupported
  | lockMismatch (attr : String) (specified : AttrValue) (final : Option AttrValue)
  | notImplemented
  | transportFailure (msg : String)
  deriving DecidableEq

/-- True exactly on the `LockMismatch` error. -/
def FetchError.isLockMismatch : FetchError → Bool
  | .lockMismatch _ _ _ => true
  | _ => false

/-- True exactly when a result is an `InvalidAttribute` failure. -/
def isInvalidAttributeError {α : Type} : Except FetchError α → Bool
  | .error (.invalidAttribute _) => true
  | _ => false

/-- The central descriptor (`struct Input` of the header): an optional
reference to a bound scheme (represented by the name under which the
process-wide scheme singleton is registered, which is its identity), an
attribute bag, and an optional parent path for relative resolution. -/
structure Input where
  scheme : Option String
  attrs : Attrs
  parent : Option String
  deriving DecidableEq

/-- Embeds `Input::toAttrs`. Modelled from the spec: the attribute-set
notation of an input is its attribute bag (round-trips with `fromAttrs`). -/
def Input.toAttrs (i : Input) : Attrs := i.attrs

/-- Embeds `Input::contains`. Modelled from the spec: `other` refines
`this` — every attribute present in `this` must be present and equal in
`other`. -/
def Input.contains (a b : Input) : Bool :=
  a.attrs.all fun kv => decide (lookupAttr b.attrs kv.1 = some kv.2)

/-- Lazy read-only file-tree view (`InputAccessor`), identified for the
purposes of this development by the serialized content of the tree it
exposes (its sole observable). -/
structure Accessor where
  tree : String
  deriving DecidableEq

/-- Content-addressed store location. -/
abbrev StorePath := String

/-- The store collaborator (spec section 6): deterministic content
addressing of a serialized tree, plus the accessor cache keyed by
fingerprint, which also records the final input the cached fetch
produced. -/
structure Store where
  computeStorePathForTree : String → StorePath
  cache : List (String × (Accessor × Input))

/-- Embeds the store-interface operation `lookupCachedAccessor`. -/
def Store.lookupCachedAccessor (st : Store) (fp : String) : Option (Accessor × Input) :=
  lookupAttr st.cache fp

/-- Embeds the store-interface operation `cacheAccessor`. -/
def Store.cacheAccessor (st : Store) (fp : String) (e : Accessor × Input) : Store :=
  { st with cache := (fp, e) :: st.cache }

/-- Modelled from the spec: the default `InputScheme::applyOverrides` —
identity when no override is supplied, a loud `OverrideUnsupported`
failure when a non-empty `ref` or `rev` override reaches a scheme that
has no such concept (spec sections 4.2 and 7). -/
def defaultApplyOverrides (input : Input)
    (ref : Option String) (rev : Option String) : Except FetchError Input :=
  match ref, rev with
  | none, none => .ok input
  | _, _ => .error .overrideUnsupported

/-- Modelled from the spec: the default `InputScheme::checkLocks` is a
no-op; schemes that support locking override it (spec section 4.2). -/
def defaultCheckLocks (_specified _final : Input) : Except FetchError Unit :=
  .ok ()

/-- Modelled from the spec: the `checkLocks` override of a scheme that
supports locking, parameterized by its list of locking attribute names —
every locking attribute present in `specified` must be present and equal
in `final`; a mismatch is a fatal `LockMismatch` reporting both values,
never silently corrected (spec section 4.7). -/
def lockingCheckLocks (lockAttrs : List String)
    (specified final : Input) : Except FetchError Unit :=
  match lockAttrs with
  | [] => .ok ()
  | k :: rest =>
      match lookupAttr specified.attrs k with
      | none => lockingCheckLocks rest specified final
      | some v =>
          match lookupAttr final.attrs k with
          | none => .error (.lockMismatch k v none)
          | some w =>
              if v = w then lockingCheckLocks rest specified final
              else .error (.lockMismatch k v (some w))

/-- The `InputScheme` capability (the virtual interface of the header),
embedded as a record of operations. Hook fields carry the defaults of
the header or of the spec: `applyOverrides` fails loudly on unsupported
non-empty overrides, `isDirect` is true, `isLocked` is false,
`getFingerprint` is absent, `checkLocks` is a no-op. The mandatory
`getAccessor` is a function of the input alone, reflecting the section
4.2 contract that it be idempotent (same input, observably same
content). -/
structure Scheme where
  schemeName : String
  schemeDescription : String := ""
  allowedAttrs : List (String × AttributeInfo) := []
  inputFromURL : ParsedURL → Bool → Option Input := fun _ _ => none
  getAccessor : Input → Except FetchError (Accessor × Input)
  applyOverrides : Input → Option String → Option String → Except FetchError Input :=
    defaultApplyOverrides
  isDirect : Input → Bool := fun _ => true
  isLocked : Input → Bool := fun _ => false
  getFingerprint : Input → Option String := fun _ => none
  checkLocks : Input → Input → Except FetchError Unit := defaultCheckLocks

/-- The scheme registry (spec section 4.3): the ordered collection of
registered schemes, threaded explicitly through the pipeline. -/
abbrev Registry := List Scheme

/-- Registry lookup by exact scheme name; the registry registers each
scheme once under its `schemeName`. -/
def findScheme : Registry → String → Option Scheme
  | [], _ => none
  | s :: rest, t => if s.schemeName = t then some s else findScheme rest t

/-- The scheme a given input is bound to, resolved through the registry. -/
def schemeOf (reg : Registry) (i : Input) : Option Scheme :=
  match i.scheme with
  | none => none
  | some t => findScheme reg t

/-- Modelled from the spec: part of `inputFromAttrs` validation (spec
section 4.2) — the first attribute of the bag not recognized by
`allowedAttrs`, if any; `type` is exempt, being parsed first to choose
the scheme. -/
def firstUnknownAttr (allowed : List (String × AttributeInfo)) : Attrs → Option String
  | [] => none
  | (k, _) :: rest =>
      if k = typeKey then firstUnknownAttr allowed rest
      else match lookupAttr allowed k with
        | some _ => firstUnknownAttr allowed rest
        | none => some k

/-- Modelled from the spec: part of `inputFromAttrs` validation (spec
section 4.2) — the first attribute declared required by `allowedAttrs`
but missing from the bag, if any. -/
def firstMissingAttr (attrs : Attrs) : List (String × AttributeInfo) → Option String
  | [] => none
  | (k, info) :: rest =>
      if info.required then
        match lookupAttr attrs k with
        | some _ => firstMissingAttr attrs rest
        | none => some k
      else firstMissingAttr attrs rest

/-- Modelled from the spec: `inputFromAttrs` validation — fail (not
merely return nothing) with `InvalidAttribute` if an unrecognized
attribute is present or a required one is missing (spec section 4.2). -/
def validateAttrs (s : Scheme) (attrs : Attrs) : Except FetchError Unit :=
  match firstUnknownAttr s.allowedAttrs attrs with
  | some k => .error (.invalidAttribute k)
  | none =>
      match firstMissingAttr attrs s.allowedAttrs with
      | some k => .error (.invalidAttribute k)
      | none => .ok ()

/-- Modelled from the spec: the scheme-side `inputFromAttrs` — validate
the bag against `allowedAttrs`, then produce an input bound to this
scheme carrying the bag, with no parent context (spec sections 4.2 and
4.4). -/
def inputFromAttrs (s : Scheme) (attrs : Attrs) : Except FetchError Input :=
  match validateAttrs s attrs with
  | .error e => .error e
  | .ok _ => .ok { scheme := some s.schemeName, attrs := attrs, parent := none }

/-- Embeds `Input::fromAttrs`. Modelled from the spec: `type` is parsed
first and used as a direct registry lookup key; an unknown `type` fails
with `UnknownInputType`; a missing or non-string `type` is an invalid
attribute; then delegate to the `inputFromAttrs` of the scheme (spec
sections 4.3 and 4.4). -/
def Input.fromAttrs (reg : Registry) (attrs : Attrs) : Except FetchError Input :=
  match lookupAttr attrs typeKey with
  | some (.str t) =>
      match findScheme reg t with
      | some s => inputFromAttrs s attrs
      | none => .error (.unknownInputType t)
  | some _ => .error (.invalidAttribute typeKey)
  | none => .error (.invalidAttribute typeKey)

/-- Modelled from the spec: the registry scan of `fromURL` — try every
registered scheme in registration order; on the first recognizing
scheme, bind it and attach the canonical scheme name into the `type`
attribute; no recognition is a fatal `UnrecognizedURL` (spec sections
4.3 and 4.4). -/
def resolveURL (url : ParsedURL) (requireTree : Bool) : Registry → Except FetchError Input
  | [] => .error .unrecognizedURL
  | s :: rest =>
      match s.inputFromURL url requireTree with
      | some i =>
          .ok { i with
                scheme := some s.schemeName,
                attrs := insertAttr typeKey (.str s.schemeName) i.attrs }
      | none => resolveURL url requireTree rest

/-- Embeds `Input::fromURL` on a `ParsedURL`, with the default argument
`requireTree = true` of the header. -/
def Input.fromURLParsed (reg : Registry) (url : ParsedURL)
    (requireTree : Bool := true) : Except FetchError Input :=
  resolveURL url requireTree reg

/-- Modelled from the spec: parsing a URL string into its structured
form; a string without a scheme separator is not a recognizable URL. -/
def parseURL (s : String) : Except FetchError ParsedURL :=
  match s.splitOn ("://") with
  | [sch, rest] => .ok { urlScheme := sch, path := rest }
  | _ => .error .unrecognizedURL

/-- Embeds `Input::fromURL` on a string, with the default argument
`requireTree = true` of the header: parse the string, delegate to the
`ParsedURL` overload (spec section 4.4). -/
def Input.fromURL (reg : Registry) (url : String)
    (requireTree : Bool := true) : Except FetchError Input :=
  match parseURL url with
  | .ok u => Input.fromURLParsed reg u requireTree
  | .error e => .error e

/-- Embeds `Input::applyOverrides`. Modelled from the spec: delegates to
the bound scheme; an unbound input has nothing to override. -/
def Input.applyOverrides (reg : Registry) (i : Input)
    (ref : Option String) (rev : Option String) : Except FetchError Input :=
  match schemeOf reg i with
  | none => .ok i
  | some s => s.applyOverrides i ref rev

/-- Embeds `Input::isLocked`: delegates to the bound scheme; a raw input
is never locked. -/
def Input.isLocked (reg : Registry) (i : Input) : Bool :=
  match schemeOf reg i with
  | none => false
  | some s => s.isLocked i

/-- Embeds `Input::getFingerprint`: delegates to the bound scheme. -/
def Input.getFingerprint (reg : Registry) (i : Input) : Option String :=
  match schemeOf reg i with
  | none => none
  | some s => s.getFingerprint i

/-- Embeds `Input::getAccessorUnchecked`. Modelled from the spec: fail
with `MissingScheme` on a raw input, otherwise invoke the mandatory
`getAccessor` of the bound scheme directly (spec section 4.5). -/
def Input.getAccessorUnchecked (reg : Registry) (i : Input) :
    Except FetchError (Accessor × Input) :=
  match i.scheme with
  | none => .error .missingScheme
  | some t =>
      match findScheme reg t with
      | none => .error (.unknownInputType t)
      | some s => s.getAccessor i

/-- Validate a fetch result against the specified input before returning
it: surface a lock-check failure, else hand the result through (spec
section 4.7). -/
def checkedResult (s : Scheme) (i : Input) (e : Accessor × Input) :
    Except FetchError (Accessor × Input) :=
  match s.checkLocks i e.2 with
  | .error err => .error err
  | .ok _ => .ok e

/-- As `checkedResult`, additionally carrying the store state the caller
should continue with. -/
def withLocks (s : Scheme) (i : Input) (e : Accessor × Input) (st : Store) :
    Except FetchError ((Accessor × Input) × Store) :=
  match s.checkLocks i e.2 with
  | .error err => .error err
  | .ok _ => .ok (e, st)

/-- Modelled from the spec: the scheme-dispatched body of
`Input::getAccessor` — consult the store for a cached accessor keyed by
the input fingerprint before invoking the scheme, populate the cache on
a miss, then check the locking attributes of the final input against the
specified one (spec sections 4.5 and 4.7). -/
def getAccessorWith (s : Scheme) (st : Store) (i : Input) :
    Except FetchError ((Accessor × Input) × Store) :=
  match s.getFingerprint i with
  | some fp =>
      match st.lookupCachedAccessor fp with
      | some e => withLocks s i e st
      | none =>
          match s.getAccessor i with
          | .error err => .error err
          | .ok e => withLocks s i e (st.cacheAccessor fp e)
  | none =>
      match s.getAccessor i with
      | .error err => .error err
      | .ok e => withLocks s i e st

/-- Embeds `Input::getAccessor`. Modelled from the spec: fail with
`MissingScheme` on a raw input, otherwise dispatch to the bound scheme
through the fingerprint-cache pre-check; returns the possibly-updated
store alongside the result (spec section 4.5). -/
def Input.getAccessor (reg : Registry) (st : Store) (i : Input) :
    Except FetchError ((Accessor × Input) × Store) :=
  match i.scheme with
  | none => .error .missingScheme
  | some t =>
      match findScheme reg t with
      | none => .error (.unknownInputType t)
      | some s => getAccessorWith s st i

/-- Reference behaviour for the cache pre-check claim: invoke the bound
scheme directly, with the lock check but without the cache pre-check
(spec section 4.5). -/
def Input.getAccessorDirect (reg : Registry) (i : Input) :
    Except FetchError (Accessor × Input) :=
  match i.scheme with
  | none => .error .missingScheme
  | some t =>
      match findScheme reg t with
      | none => .error (.unknownInputType t)
      | some s =>
          match s.getAccessor i with
          | .error err => .error err
          | .ok e => checkedResult s i e

/-- Embeds `Input::fetchToStore`. Modelled from the spec: delegate to
`getAccessor`, then materialize the resulting tree into the
content-addressed store, the store path computed from the tree content;
return the locked input alongside the path (spec section 4.5). -/
def Input.fetchToStore (reg : Registry) (st : Store) (i : Input) :
    Except FetchError ((StorePath × Input) × Store) :=
  match Input.getAccessor reg st i with
  | .error e => .error e
  | .ok ((acc, final), st') =>
      .ok ((st'.computeStorePathForTree acc.tree, final), st')

/-- Coherence of the accessor cache: a cached entry for a fingerprint is
exactly what the scheme fetch of any input carrying that fingerprint
returns. Every cache populated only by the pipeline satisfies this. -/
def CacheCoherent (reg : Registry) (st : Store) : Prop :=
  ∀ fp e, st.lookupCachedAccessor fp = some e →
    ∀ i s, schemeOf reg i = some s → s.getFingerprint i = some fp →
      s.getAccessor i = .ok e

/-- Scheme contract (spec section 8, containment): a fetched final input
refines the specified one — defined over bags without duplicate keys,
the only bags a C++ map can hold. -/
def SchemeRefines (s : Scheme) : Prop :=
  ∀ j a fin, distinctKeys j.attrs = true → s.getAccessor j = .ok (a, fin) →
    j.contains fin = true

/-- True when a scheme-bound input carries the scheme name in its `type`
attribute (the scheme-binding invariant of spec section 3). -/
def schemeBindingB (i : Input) : Bool :=
  match i.scheme with
  | none => true
  | some t => decide (lookupAttr i.attrs typeKey = some (.str t))

/-- Scheme contract: the override hook preserves the scheme-binding
invariant. -/
def SchemeOverridePreservesBinding (s : Scheme) : Prop :=
  ∀ j ref rev j', s.applyOverrides j ref rev = .ok j' →
    schemeBindingB j = true → schemeBindingB j' = true

/-- Scheme contract: the fetch hook preserves the scheme-binding
invariant into the final input it returns. -/
def SchemeFetchPreservesBinding (s : Scheme) : Prop :=
  ∀ j a fin, s.getAccessor j = .ok (a, fin) →
    schemeBindingB j = true → schemeBindingB fin = true

/-- Sample backend: a plain local-path scheme; no ref or rev concept, so
it keeps every hook default. Its fetch exposes a fixed tree and returns
the input unchanged. -/
def pathScheme : Scheme where
  schemeName := "path"
  allowedAttrs := [("path", {})]
  getAccessor := fun i => .ok ({ tree := "path-tree" }, i)

/-- Sample backend: a git-class scheme supporting locking through the
`rev` attribute, with a fingerprint derived from `rev` and a locking
`checkLocks`. -/
def gitScheme : Scheme where
  schemeName := "git"
  allowedAttrs := [("url", {}), ("rev", { required := false })]
  inputFromURL := fun u _ =>
    if u.urlScheme = "git" then
      some { scheme := none, attrs := [("url", .str u.path)], parent := none }
    else none
  getAccessor := fun i =>
    .ok ({ tree := "git-tree" },
      { i with attrs := insertAttr ("rev") (.str ("abcd")) i.attrs })
  isLocked := fun i => (lookupAttr i.attrs ("rev")).isSome
  getFingerprint := fun i =>
    match lookupAttr i.attrs ("rev") with
    | some (.str r) => some ("git-" ++ r)
    | _ => none
  checkLocks := lockingCheckLocks [("rev")]

/-- Sample registry holding the two sample backends. -/
def sampleRegistry : Registry := [gitScheme, pathScheme]

/-- Sample store: prefix-based content addressing, empty cache. -/
def sampleStore : Store where
  computeStorePathForTree := fun t => ("/store/") ++ t
  cache := []

/-- A raw input: no bound scheme, empty bag. -/
def rawInput : Input where
  scheme := none
  attrs := []
  parent := none

/-- A locked input bound to the git scheme. -/
def gitInput : Input where
  scheme := some ("git")
  attrs := [(typeKey, .str ("git")), (("url"), .str ("https")), (("rev"), .str ("abcd"))]
  parent := none

/-- An input bound to the path scheme. -/
def pathInput : Input where
  scheme := some ("path")
  attrs := [(typeKey, .str ("path")), (("path"), .str ("/x"))]
  parent := none

/-- A specified input pinning `rev` to a value the sample final input
disagrees with, for exercising the lock check. -/
def pinnedInput : Input where
  scheme := some ("git")
  attrs := [(typeKey, .str ("git")), (("rev"), .str ("ffff"))]
  parent := none

instance {ε α : Type} [DecidableEq ε] [DecidableEq α] : DecidableEq (Except ε α) :=
  fun a b =>
    match a, b with
    | .error e, .error f =>
        if h : e = f then .isTrue (by rw [h])
        else .isFalse fun hh => h (by injection hh)
    | .error _, .ok _ => .isFalse fun hh => Except.noConfusion hh
    | .ok _, .error _ => .isFalse fun hh => Except.noConfusion hh
    | .ok x, .ok y =>
        if h : x = y then .isTrue (by rw [h])
        else .isFalse fun hh => h (by injection hh)

/-- Looking up the key just inserted returns the inserted value. -/
theorem lookupAttr_insert_self (key : String) (v : AttrValue) :
    ∀ as : Attrs, lookupAttr (insertAttr key v as) key = some v := by
  intro as
  induction as with
  | nil => simp [insertAttr, lookupAttr]
  | cons kv rest ih =>
      obtain ⟨k, w⟩ := kv
      by_cases h : k = key
      · simp [insertAttr, h, lookupAttr]
      · simp [insertAttr, h, lookupAttr, ih]

/-- A scheme found in the registry under a name carries that name. -/
theorem findScheme_schemeName :
    ∀ (reg : Registry) (t : String) (s : Scheme),
      findScheme reg t = some s → s.schemeName = t := by
  intro reg
  induction reg with
  | nil => intro t s h; exact Option.noConfusion h
  | cons s0 rest ih =>
      intro t s h
      simp only [findScheme] at h
      by_cases h0 : s0.schemeName = t
      · rw [if_pos h0] at h
        injection h with h'
        subst h'
        exact h0
      · rw [if_neg h0] at h
        exact ih t s h

/-- In a bag without duplicate keys, lookup finds every member. -/
theorem lookupAttr_of_mem_nodup {α : Type} :
    ∀ (as : List (String × α)) (k : String) (v : α),
      (as.map Prod.fst).Nodup → (k, v) ∈ as → lookupAttr as k = some v := by
  intro as
  induction as with
  | nil => intro k v _ hm; cases hm
  | cons kv rest ih =>
      intro k v hnd hm
      obtain ⟨k0, v0⟩ := kv
      rw [List.map_cons, List.nodup_cons] at hnd
      cases hm with
      | head => simp [lookupAttr]
      | tail _ hm' =>
          simp only [lookupAttr]
          by_cases hk : k0 = k
          · exfalso
            apply hnd.1
            rw [hk]
            exact List.mem_map.mpr ⟨(k, v), hm', rfl⟩
          · rw [if_neg hk]
            exact ih k v hnd.2 hm'

/-- Containment is reflexive on inputs whose bags have no duplicate keys. -/
theorem contains_refl_of_distinct (i : Input) (h : distinctKeys i.attrs = true) :
    i.contains i = true := by
  rw [Input.contains, List.all_eq_true]
  intro kv hm
  rw [decide_eq_true_eq]
  exact lookupAttr_of_mem_nodup i.attrs kv.1 kv.2 (of_decide_eq_true h) hm

/-- A successful `withLocks` hands the pair and the store through
unchanged and certifies the lock check passed. -/
theorem withLocks_ok (s : Scheme) (i : Input) (e : Accessor × Input) (st : Store)
    (p : (Accessor × Input) × Store) (h : withLocks s i e st = .ok p) :
    p = (e, st) ∧ s.checkLocks i e.2 = .ok () := by
  simp only [withLocks] at h
  cases hc : s.checkLocks i e.2 with
  | error err => rw [hc] at h; exact Except.noConfusion h
  | ok u =>
      rw [hc] at h
      injection h with h'
      cases u
      exact ⟨h'.symm, rfl⟩

/-- Dropping the store component of `withLocks` gives `checkedResult`. -/
theorem withLocks_map_fst (s : Scheme) (i : Input) (e : Accessor × Input) (st : Store) :
    (withLocks s i e st).map Prod.fst = checkedResult s i e := by
  simp only [withLocks, checkedResult]
  cases s.checkLocks i e.2 <;> rfl

/-- C5: on an input whose scheme reference is null, both `fetchToStore`
and `getAccessor` fail with the `MissingScheme` error instead of
returning a result. -/
theorem missingScheme_on_raw_input (reg : Registry) (st : Store) (i : Input)
    (h : i.scheme = none) :
    Input.fetchToStore reg st i = .error .missingScheme ∧
    Input.getAccessor reg st i = .error .missingScheme := by
  have hg : Input.getAccessor reg st i = .error .missingScheme := by
    unfold Input.getAccessor
    rw [h]
  refine ⟨?_, hg⟩
  unfold Input.fetchToStore
  rw [hg]

/-- Witness for C5 at the raw sample input. -/
theorem missingScheme_on_raw_input_witness :
    Input.fetchToStore sampleRegistry sampleStore rawInput = .error .missingScheme ∧
    Input.getAccessor sampleRegistry sampleStore rawInput = .error .missingScheme :=
  missingScheme_on_raw_input sampleRegistry sampleStore rawInput rfl

/-- C9: both `fromURL` overloads called without the `requireTree`
argument behave identically to calling them with `requireTree = true` —
the flag defaults to `true` at the public interface, as the header
declares. -/
theorem fromURL_requireTree_default :
    (∀ (reg : Registry) (url : String),
      Input.fromURL reg url = Input.fromURL reg url true) ∧
    (∀ (reg : Registry) (url : ParsedURL),
      Input.fromURLParsed reg url = Input.fromURLParsed reg url true) :=
  ⟨fun _ _ => rfl, fun _ _ => rfl⟩

/-- C6: on an input bound to a scheme that keeps the default override
hook (no ref or rev concept), `applyOverrides` with both overrides empty
returns the input unchanged, and with a non-empty `ref` or `rev` fails
with `OverrideUnsupported` rather than silently returning the input. -/
theorem applyOverrides_default_behavior (reg : Registry) (i : Input) (s : Scheme)
    (hs : schemeOf reg i = some s)
    (hd : s.applyOverrides = defaultApplyOverrides) :
    Input.applyOverrides reg i none none = .ok i ∧
    ∀ ref rev, (ref ≠ none ∨ rev ≠ none) →
      Input.applyOverrides reg i ref rev = .error .overrideUnsupported := by
  constructor
  · unfold Input.applyOverrides
    simp only [hs]
    rw [hd]
    rfl
  · intro ref rev hne
    unfold Input.applyOverrides
    simp only [hs]
    rw [hd]
    cases ref with
    | none =>
        cases rev with
        | none => rcases hne with h | h <;> exact absurd rfl h
        | some r => rfl
    | some r => cases rev <;> rfl

/-- Witness for C6 at the path scheme, which keeps the default hook. -/
theorem applyOverrides_default_behavior_witness :
    Input.applyOverrides sampleRegistry pathInput none none = .ok pathInput ∧
    Input.applyOverrides sampleRegistry pathInput (some ("x")) none =
      .error .overrideUnsupported :=
  ⟨(applyOverrides_default_behavior sampleRegistry pathInput pathScheme rfl rfl).1,
   (applyOverrides_default_behavior sampleRegistry pathInput pathScheme rfl rfl).2
     (some ("x")) none (Or.inl (by decide))⟩

/-- C1 counterexample: the round-trip fails for a raw input — its bag
has no `type` attribute, so `fromAttrs` on its `toAttrs` is a fatal
error, not the input back. -/
theorem fromAttrs_toAttrs_counterexample :
    Input.fromAttrs sampleRegistry (Input.toAttrs rawInput) ≠ .ok rawInput := by
  decide

/-- C1 (amended): `fromAttrs (toAttrs i) = i` for every input in the
image of `fromAttrs` — every input bound to a registered scheme whose
bag carries the scheme name under `type` and validates, with no parent. -/
theorem fromAttrs_toAttrs_roundtrip (reg : Registry) (as : Attrs) (i : Input)
    (h : Input.fromAttrs reg as = .ok i) :
    Input.fromAttrs reg (Input.toAttrs i) = .ok i := by
  unfold Input.fromAttrs at h ⊢
  cases hty : lookupAttr as typeKey with
  | none =>
      simp only [hty] at h
      exact Except.noConfusion h
  | some v =>
      cases v with
      | int n =>
          simp only [hty] at h
          exact Except.noConfusion h
      | boolean b =>
          simp only [hty] at h
          exact Except.noConfusion h
      | str t =>
          simp only [hty] at h
          cases hf : findScheme reg t with
          | none =>
              simp only [hf] at h
              exact Except.noConfusion h
          | some s =>
              simp only [hf] at h
              unfold inputFromAttrs at h
              cases hv : validateAttrs s as with
              | error e =>
                  simp only [hv] at h
                  exact Except.noConfusion h
              | ok u =>
                  simp only [hv] at h
                  injection h with h'
                  subst h'
                  simp only [Input.toAttrs, hty, hf]
                  unfold inputFromAttrs
                  rw [hv]

/-- Witness for the amended C1 at a concrete path-scheme input. -/
theorem fromAttrs_toAttrs_roundtrip_witness :
    Input.fromAttrs sampleRegistry (Input.toAttrs pathInput) = .ok pathInput :=
  fromAttrs_toAttrs_roundtrip sampleRegistry pathInput.attrs pathInput (by decide)

/-- The locking lock check succeeds exactly when every locking attribute
present in the specified input recurs, equal, in the final one. -/
theorem lockingCheckLocks_ok_iff (ks : List String) (sp fi : Input) :
    lockingCheckLocks ks sp fi = .ok () ↔
      ∀ k ∈ ks, ∀ v, lookupAttr sp.attrs k = some v → lookupAttr fi.attrs k = some v := by
  induction ks with
  | nil => simp [lockingCheckLocks]
  | cons k rest ih =>
      rw [List.forall_mem_cons]
      cases hsp : lookupAttr sp.attrs k with
      | none =>
          have hred : lockingCheckLocks (k :: rest) sp fi = lockingCheckLocks rest sp fi := by
            simp [lockingCheckLocks, hsp]
          rw [hred, ih]
          constructor
          · intro hrest
            exact ⟨fun v hv => Option.noConfusion hv, hrest⟩
          · exact fun hh => hh.2
      | some v =>
          cases hfi : lookupAttr fi.attrs k with
          | none =>
              have hred : lockingCheckLocks (k :: rest) sp fi =
                  .error (.lockMismatch k v none) := by
                simp [lockingCheckLocks, hsp, hfi]
              rw [hred]
              constructor
              · intro hh
                exact Except.noConfusion hh
              · intro hh
                exact absurd (hh.1 v rfl) (fun hv => Option.noConfusion hv)
          | some w =>
              by_cases hvw : v = w
              · subst hvw
                have hred : lockingCheckLocks (k :: rest) sp fi =
                    lockingCheckLocks rest sp fi := by
                  simp [lockingCheckLocks, hsp, hfi]
                rw [hred, ih]
                constructor
                · intro hrest
                  exact ⟨fun v' hv' => hv', hrest⟩
                · exact fun hh => hh.2
              · have hred : lockingCheckLocks (k :: rest) sp fi =
                    .error (.lockMismatch k v (some w)) := by
                  simp [lockingCheckLocks, hsp, hfi, hvw]
                rw [hred]
                constructor
                · intro hh
                  exact Except.noConfusion hh
                · intro hh
                  exfalso
                  have hv := hh.1 v rfl
                  injection hv with h2
                  exact hvw h2.symm

/-- The locking lock check either succeeds or fails with a
`LockMismatch` error — no other outcome. -/
theorem lockingCheckLocks_cases (ks : List String) (sp fi : Input) :
    lockingCheckLocks ks sp fi = .ok () ∨
      ∃ e, lockingCheckLocks ks sp fi = .error e ∧ e.isLockMismatch = true := by
  induction ks with
  | nil => exact Or.inl rfl
  | cons k rest ih =>
      cases hsp : lookupAttr sp.attrs k with
      | none =>
          have hred : lockingCheckLocks (k :: rest) sp fi = lockingCheckLocks rest sp fi := by
            simp [lockingCheckLocks, hsp]
          rw [hred]
          exact ih
      | some v =>
          cases hfi : lookupAttr fi.attrs k with
          | none =>
              have hred : lockingCheckLocks (k :: rest) sp fi =
                  .error (.lockMismatch k v none) := by
                simp [lockingCheckLocks, hsp, hfi]
              rw [hred]
              exact Or.inr ⟨_, rfl, rfl⟩
          | some w =>
              by_cases hvw : v = w
              · subst hvw
                have hred : lockingCheckLocks (k :: rest) sp fi =
                    lockingCheckLocks rest sp fi := by
                  simp [lockingCheckLocks, hsp, hfi]
                rw [hred]
                exact ih
              · have hred : lockingCheckLocks (k :: rest) sp fi =
                    .error (.lockMismatch k v (some w)) := by
                  simp [lockingCheckLocks, hsp, hfi, hvw]
                rw [hred]
                exact Or.inr ⟨_, rfl, rfl⟩

/-- C4: on a scheme that supports locking (its `checkLocks` is the
locking override for its locking attribute list), `checkLocks` raises a
`LockMismatch` error if and only if some locking attribute present in
`specified` is absent from `final` or differs there; otherwise it
succeeds, never silently correcting a mismatch. -/
theorem checkLocks_lockMismatch_iff (s : Scheme) (ks : List String)
    (hs : s.checkLocks = lockingCheckLocks ks) (sp fi : Input) :
    ((∃ e, s.checkLocks sp fi = .error e ∧ e.isLockMismatch = true) ↔
      ∃ k ∈ ks, ∃ v, lookupAttr sp.attrs k = some v ∧ lookupAttr fi.attrs k ≠ some v) ∧
    (s.checkLocks sp fi = .ok () ↔
      ∀ k ∈ ks, ∀ v, lookupAttr sp.attrs k = some v → lookupAttr fi.attrs k = some v) := by
  rw [hs]
  refine ⟨⟨?_, ?_⟩, lockingCheckLocks_ok_iff ks sp fi⟩
  · rintro ⟨e, he, _⟩
    by_contra hno
    push_neg at hno
    rw [(lockingCheckLocks_ok_iff ks sp fi).2 hno] at he
    exact Except.noConfusion he
  · intro hex
    rcases lockingCheckLocks_cases ks sp fi with hok | hbad
    · exfalso
      rcases hex with ⟨k, hk, v, hv, hne⟩
      exact hne ((lockingCheckLocks_ok_iff ks sp fi).1 hok k hk v hv)
    · exact hbad

/-- Witness for C4: the git sample scheme, a pinned specified input and
a final input that disagrees on `rev`. -/
theorem checkLocks_lockMismatch_iff_witness :
    (∃ e, gitScheme.checkLocks pinnedInput gitInput = .error e ∧
        e.isLockMismatch = true) ↔
      ∃ k ∈ [("rev")], ∃ v, lookupAttr pinnedInput.attrs k = some v ∧
        lookupAttr gitInput.attrs k ≠ some v :=
  (checkLocks_lockMismatch_iff gitScheme [("rev")] rfl pinnedInput gitInput).1

/-- C3: with a coherent accessor cache, `getAccessor` — which first
consults the store for a cached accessor keyed by the input fingerprint —
returns the same observable result (accessor and returned input, or the
same error) as invoking the bound scheme directly without the cache
pre-check. -/
theorem getAccessor_cache_transparent (reg : Registry) (st : Store) (i : Input)
    (hco : CacheCoherent reg st) :
    (Input.getAccessor reg st i).map Prod.fst = Input.getAccessorDirect reg i := by
  unfold Input.getAccessor Input.getAccessorDirect
  cases hi : i.scheme with
  | none => rfl
  | some t =>
      dsimp only
      cases hf : findScheme reg t with
      | none => rfl
      | some s =>
          dsimp only
          unfold getAccessorWith
          cases hfp : s.getFingerprint i with
          | none =>
              try dsimp only
              cases hacc : s.getAccessor i with
              | error err => rfl
              | ok e => exact withLocks_map_fst s i e st
          | some fp =>
              try dsimp only
              cases hc : st.lookupCachedAccessor fp with
              | none =>
                  try dsimp only
                  cases hacc : s.getAccessor i with
                  | error err => rfl
                  | ok e => exact withLocks_map_fst s i e (st.cacheAccessor fp e)
              | some e =>
                  have hsch : schemeOf reg i = some s := by
                    unfold schemeOf
                    rw [hi]
                    exact hf
                  have hacc : s.getAccessor i = .ok e := hco fp e hc i s hsch hfp
                  rw [hacc]
                  exact withLocks_map_fst s i e st

/-- Witness for C3 at the locked git sample input over the empty-cache
sample store, which is trivially coherent. -/
theorem getAccessor_cache_transparent_witness :
    (Input.getAccessor sampleRegistry sampleStore gitInput).map Prod.fst =
      Input.getAccessorDirect sampleRegistry gitInput :=
  getAccessor_cache_transparent sampleRegistry sampleStore gitInput
    (fun _ _ hc => Option.noConfusion hc)

/-- The freshly inserted cache entry is the one lookup finds. -/
theorem lookupCachedAccessor_cacheAccessor (st : Store) (fp : String)
    (e : Accessor × Input) :
    (st.cacheAccessor fp e).lookupCachedAccessor fp = some e := by
  simp [Store.cacheAccessor, Store.lookupCachedAccessor, lookupAttr]

/-- Re-running the scheme-dispatched accessor body on the store it
returned reproduces its result exactly. -/
theorem getAccessorWith_stable (s : Scheme) (st : Store) (i : Input)
    (p : (Accessor × Input) × Store) (h : getAccessorWith s st i = .ok p) :
    getAccessorWith s p.2 i = .ok p := by
  unfold getAccessorWith at h ⊢
  cases hfp : s.getFingerprint i with
  | none =>
      simp only [hfp] at h ⊢
      cases hacc : s.getAccessor i with
      | error err =>
          simp only [hacc] at h
          exact Except.noConfusion h
      | ok e =>
          simp only [hacc] at h ⊢
          obtain ⟨hp, _⟩ := withLocks_ok s i e st p h
          subst hp
          exact h
  | some fp =>
      simp only [hfp] at h ⊢
      cases hc : st.lookupCachedAccessor fp with
      | some e =>
          simp only [hc] at h
          obtain ⟨hp, _⟩ := withLocks_ok s i e st p h
          subst hp
          dsimp only
          simp only [hc]
          exact h
      | none =>
          simp only [hc] at h
          cases hacc : s.getAccessor i with
          | error err =>
              simp only [hacc] at h
              exact Except.noConfusion h
          | ok e =>
              simp only [hacc] at h
              obtain ⟨hp, _⟩ := withLocks_ok s i e (st.cacheAccessor fp e) p h
              subst hp
              dsimp only
              simp only [lookupCachedAccessor_cacheAccessor]
              exact h

/-- Re-running `getAccessor` on the store it returned reproduces its
result exactly: the populated cache serves the second call. -/
theorem getAccessor_stable (reg : Registry) (st : Store) (i : Input)
    (p : (Accessor × Input) × Store) (h : Input.getAccessor reg st i = .ok p) :
    Input.getAccessor reg p.2 i = .ok p := by
  unfold Input.getAccessor at h ⊢
  cases hi : i.scheme with
  | none =>
      simp only [hi] at h
      exact Except.noConfusion h
  | some t =>
      simp only [hi] at h
      dsimp only
      cases hf : findScheme reg t with
      | none =>
          simp only [hf] at h
          exact Except.noConfusion h
      | some s =>
          simp only [hf] at h
          try dsimp only
          exact getAccessorWith_stable s st i p h

/-- C2: calling `fetchToStore` a second time on the same locked input,
over the store state the first call returned, reproduces the first
result exactly — in particular the same store path both times. -/
theorem fetchToStore_idempotent (reg : Registry) (st : Store) (i : Input)
    (_hl : Input.isLocked reg i = true)
    (r : (StorePath × Input) × Store) (h : Input.fetchToStore reg st i = .ok r) :
    Input.fetchToStore reg r.2 i = .ok r := by
  unfold Input.fetchToStore at h ⊢
  cases hg : Input.getAccessor reg st i with
  | error e =>
      simp only [hg] at h
      exact Except.noConfusion h
  | ok p =>
      simp only [hg] at h
      obtain ⟨⟨acc, fin⟩, st'⟩ := p
      injection h with h'
      subst h'
      have hst : Input.getAccessor reg st' i = .ok ((acc, fin), st') :=
        getAccessor_stable reg st i ((acc, fin), st') hg
      dsimp only
      simp only [hst]

/-- The store state after the sample first fetch of the git input: the
fingerprint cache now holds its accessor and final input. -/
def gitStoreAfter : Store :=
  Store.cacheAccessor sampleStore ("git-abcd") ({ tree := "git-tree" }, gitInput)

/-- Witness for C2: the locked git sample input fetches to the same
store path again over the store returned by its first fetch. -/
theorem fetchToStore_idempotent_witness :
    Input.isLocked sampleRegistry gitInput = true ∧
    Input.fetchToStore sampleRegistry gitStoreAfter gitInput =
      .ok ((("/store/git-tree"), gitInput), gitStoreAfter) :=
  ⟨rfl,
   fetchToStore_idempotent sampleRegistry sampleStore gitInput rfl
     ((("/store/git-tree"), gitInput), gitStoreAfter) rfl⟩

/-- With a cache-coherence witness for the fingerprint of a given input,
a successful dispatch through the cache pre-check returns exactly what a
direct scheme fetch of that input returns. -/
theorem getAccessorWith_ok_fetch (s : Scheme) (st : Store) (i : Input)
    (hcoh : ∀ fp e, st.lookupCachedAccessor fp = some e →
      s.getFingerprint i = some fp → s.getAccessor i = .ok e)
    (p : (Accessor × Input) × Store) (h : getAccessorWith s st i = .ok p) :
    s.getAccessor i = .ok p.1 := by
  unfold getAccessorWith at h
  cases hfp : s.getFingerprint i with
  | none =>
      simp only [hfp] at h
      cases hacc : s.getAccessor i with
      | error err =>
          simp only [hacc] at h
          exact Except.noConfusion h
      | ok e =>
          simp only [hacc] at h
          obtain ⟨hp, _⟩ := withLocks_ok s i e st p h
          rw [hp]
  | some fp =>
      simp only [hfp] at h
      cases hc : st.lookupCachedAccessor fp with
      | some e =>
          simp only [hc] at h
          obtain ⟨hp, _⟩ := withLocks_ok s i e st p h
          rw [hp]
          exact hcoh fp e hc hfp
      | none =>
          simp only [hc] at h
          cases hacc : s.getAccessor i with
          | error err =>
              simp only [hacc] at h
              exact Except.noConfusion h
          | ok e =>
              simp only [hacc] at h
              obtain ⟨hp, _⟩ := withLocks_ok s i e (st.cacheAccessor fp e) p h
              rw [hp]

/-- The path sample scheme refines: its final input is the specified
input itself. -/
theorem pathScheme_refines : SchemeRefines pathScheme := by
  intro j a fin hd h
  injection h with h'
  have h2 : j = fin := congrArg Prod.snd h'
  rw [← h2]
  exact contains_refl_of_distinct j hd

/-- C8: fetching an input through `getAccessor` or `fetchToStore` (under
the scheme containment contract and a coherent cache, over a bag without
duplicate keys) returns a final input the specified input contains:
every attribute of the specified input is present, equal, in the final
one. -/
theorem fetch_contains (reg : Registry) (st : Store) (i : Input) (s : Scheme)
    (hs : schemeOf reg i = some s) (href : SchemeRefines s)
    (hco : CacheCoherent reg st) (hd : distinctKeys i.attrs = true) :
    (∀ r, Input.getAccessor reg st i = .ok r → i.contains r.1.2 = true) ∧
    (∀ r, Input.fetchToStore reg st i = .ok r → i.contains r.1.2 = true) := by
  have hcore : ∀ p, getAccessorWith s st i = .ok p → i.contains p.1.2 = true := by
    intro p hp
    have hacc := getAccessorWith_ok_fetch s st i
      (fun fp e hc hfp => hco fp e hc i s hs hfp) p hp
    exact href i p.1.1 p.1.2 hd hacc
  have hga : ∀ r, Input.getAccessor reg st i = .ok r → getAccessorWith s st i = .ok r := by
    intro r hr
    unfold Input.getAccessor at hr
    unfold schemeOf at hs
    cases hi : i.scheme with
    | none =>
        rw [hi] at hs
        exact Option.noConfusion hs
    | some t =>
        simp only [hi] at hr hs
        cases hf : findScheme reg t with
        | none =>
            rw [hf] at hs
            exact Option.noConfusion hs
        | some s' =>
            rw [hf] at hs
            injection hs with hs'
            simp only [hf] at hr
            rw [hs'] at hr
            exact hr
  constructor
  · intro r hr
    exact hcore r (hga r hr)
  · intro r hr
    unfold Input.fetchToStore at hr
    cases hg : Input.getAccessor reg st i with
    | error e =>
        simp only [hg] at hr
        exact Except.noConfusion hr
    | ok p =>
        simp only [hg] at hr
        obtain ⟨⟨acc, fin⟩, st'⟩ := p
        injection hr with hr'
        have := hcore ((acc, fin), st') (hga ((acc, fin), st') hg)
        rw [← hr']
        exact this

/-- Witness for C8: the path sample input contains the final input its
fetch returns (itself). -/
theorem fetch_contains_witness :
    distinctKeys pathInput.attrs = true ∧
    Input.contains pathInput pathInput = true :=
  ⟨by decide,
   (fetch_contains sampleRegistry sampleStore pathInput pathScheme rfl pathScheme_refines
      (fun _ _ hc => Option.noConfusion hc) (by decide)).1
     (({ tree := "path-tree" }, pathInput), sampleStore) rfl⟩

/-- Inputs produced by the registry scan of `fromURL` carry the
recognizing scheme name in their `type` attribute. -/
theorem resolveURL_binding :
    ∀ (reg : Registry) (u : ParsedURL) (rt : Bool) (i : Input),
      resolveURL u rt reg = .ok i → schemeBindingB i = true := by
  intro reg
  induction reg with
  | nil => intro u rt i h; exact Except.noConfusion h
  | cons s rest ih =>
      intro u rt i h
      unfold resolveURL at h
      cases hr : s.inputFromURL u rt with
      | none =>
          simp only [hr] at h
          exact ih u rt i h
      | some i0 =>
          simp only [hr] at h
          injection h with h'
          subst h'
          unfold schemeBindingB
          dsimp only
          rw [lookupAttr_insert_self]
          simp


/-- Inputs produced by `fromAttrs` carry the bound scheme name in their
`type` attribute. -/
theorem fromAttrs_binding (reg : Registry) (as : Attrs) (i : Input)
    (h : Input.fromAttrs reg as = .ok i) : schemeBindingB i = true := by
  unfold Input.fromAttrs at h
  cases hty : lookupAttr as typeKey with
  | none =>
      simp only [hty] at h
      exact Except.noConfusion h
  | some v =>
      cases v with
      | int n =>
          simp only [hty] at h
          exact Except.noConfusion h
      | boolean b =>
          simp only [hty] at h
          exact Except.noConfusion h
      | str t =>
          simp only [hty] at h
          cases hf : findScheme reg t with
          | none =>
              simp only [hf] at h
              exact Except.noConfusion h
          | some s =>
              simp only [hf] at h
              unfold inputFromAttrs at h
              cases hv : validateAttrs s as with
              | error e =>
                  simp only [hv] at h
                  exact Except.noConfusion h
              | ok u =>
                  simp only [hv] at h
                  injection h with h'
                  subst h'
                  unfold schemeBindingB
                  dsimp only
                  rw [findScheme_schemeName reg t s hf, hty]
                  simp

/-- Inputs produced by the string overload of `fromURL` carry the bound
scheme name in their `type` attribute. -/
theorem fromURL_binding (reg : Registry) (u : String) (rt : Bool) (i : Input)
    (h : Input.fromURL reg u rt = .ok i) : schemeBindingB i = true := by
  unfold Input.fromURL at h
  cases hp : parseURL u with
  | error e =>
      simp only [hp] at h
      exact Except.noConfusion h
  | ok pu =>
      simp only [hp] at h
      exact resolveURL_binding reg pu rt i h

/-- `applyOverrides` preserves the scheme-binding invariant whenever the
override hook of the bound scheme does. -/
theorem applyOverrides_binding (reg : Registry) (i : Input)
    (ref rev : Option String) (i' : Input)
    (hpres : ∀ s, schemeOf reg i = some s → SchemeOverridePreservesBinding s)
    (h : Input.applyOverrides reg i ref rev = .ok i')
    (hb : schemeBindingB i = true) : schemeBindingB i' = true := by
  unfold Input.applyOverrides at h
  cases hs : schemeOf reg i with
  | none =>
      simp only [hs] at h
      injection h with h'
      subst h'
      exact hb
  | some s =>
      simp only [hs] at h
      exact hpres s hs i ref rev i' h hb

/-- `getAccessor` preserves the scheme-binding invariant into the final
input whenever the fetch hook of the bound scheme does and the cache is
coherent. -/
theorem getAccessor_binding (reg : Registry) (st : Store) (i : Input)
    (r : (Accessor × Input) × Store)
    (hpres : ∀ s, schemeOf reg i = some s → SchemeFetchPreservesBinding s)
    (hco : CacheCoherent reg st)
    (h : Input.getAccessor reg st i = .ok r)
    (hb : schemeBindingB i = true) : schemeBindingB r.1.2 = true := by
  unfold Input.getAccessor at h
  cases hi : i.scheme with
  | none =>
      simp only [hi] at h
      exact Except.noConfusion h
  | some t =>
      simp only [hi] at h
      cases hf : findScheme reg t with
      | none =>
          simp only [hf] at h
          exact Except.noConfusion h
      | some s =>
          simp only [hf] at h
          have hsch : schemeOf reg i = some s := by
            unfold schemeOf
            rw [hi]
            exact hf
          have hacc := getAccessorWith_ok_fetch s st i
            (fun fp e hc hfp => hco fp e hc i s hsch hfp) r h
          exact hpres s hsch i r.1.1 r.1.2 hacc hb

/-- `fetchToStore` preserves the scheme-binding invariant into the final
input whenever the fetch hook of the bound scheme does and the cache is
coherent. -/
theorem fetchToStore_binding (reg : Registry) (st : Store) (i : Input)
    (r : (StorePath × Input) × Store)
    (hpres : ∀ s, schemeOf reg i = some s → SchemeFetchPreservesBinding s)
    (hco : CacheCoherent reg st)
    (h : Input.fetchToStore reg st i = .ok r)
    (hb : schemeBindingB i = true) : schemeBindingB r.1.2 = true := by
  unfold Input.fetchToStore at h
  cases hg : Input.getAccessor reg st i with
  | error e =>
      simp only [hg] at h
      exact Except.noConfusion h
  | ok p =>
      simp only [hg] at h
      obtain ⟨⟨acc, fin⟩, st'⟩ := p
      injection h with h'
      have := getAccessor_binding reg st i ((acc, fin), st') hpres hco hg hb
      rw [← h']
      exact this

/-- C7: every input produced by `fromURL` or `fromAttrs` with a present
scheme reference satisfies the scheme-binding invariant — its `type`
attribute equals the bound scheme name — and the pipeline operations
producing new inputs (`applyOverrides`, `getAccessor`, `fetchToStore`)
preserve the invariant, given that the hooks of the bound scheme respect
it and the cache is coherent. -/
theorem scheme_binding_invariant :
    (∀ (reg : Registry) (as : Attrs) (i : Input),
      Input.fromAttrs reg as = .ok i → schemeBindingB i = true) ∧
    (∀ (reg : Registry) (u : ParsedURL) (rt : Bool) (i : Input),
      Input.fromURLParsed reg u rt = .ok i → schemeBindingB i = true) ∧
    (∀ (reg : Registry) (u : String) (rt : Bool) (i : Input),
      Input.fromURL reg u rt = .ok i → schemeBindingB i = true) ∧
    (∀ (reg : Registry) (i : Input) (ref rev : Option String) (i' : Input),
      (∀ s, schemeOf reg i = some s → SchemeOverridePreservesBinding s) →
      Input.applyOverrides reg i ref rev = .ok i' →
      schemeBindingB i = true → schemeBindingB i' = true) ∧
    (∀ (reg : Registry) (st : Store) (i : Input) (r : (Accessor × Input) × Store),
      (∀ s, schemeOf reg i = some s → SchemeFetchPreservesBinding s) →
      CacheCoherent reg st →
      Input.getAccessor reg st i = .ok r →
      schemeBindingB i = true → schemeBindingB r.1.2 = true) ∧
    (∀ (reg : Registry) (st : Store) (i : Input) (r : (StorePath × Input) × Store),
      (∀ s, schemeOf reg i = some s → SchemeFetchPreservesBinding s) →
      CacheCoherent reg st →
      Input.fetchToStore reg st i = .ok r →
      schemeBindingB i = true → schemeBindingB r.1.2 = true) :=
  ⟨fromAttrs_binding,
   fun reg u rt i h => resolveURL_binding reg u rt i h,
   fromURL_binding,
   applyOverrides_binding,
   getAccessor_binding,
   fetchToStore_binding⟩

/-- Witness for C7: the concrete path input produced by `fromAttrs`
satisfies the scheme-binding invariant. -/
theorem scheme_binding_invariant_witness :
    schemeBindingB pathInput = true :=
  scheme_binding_invariant.1 sampleRegistry pathInput.attrs pathInput (by decide)

/-- A required attribute declared by `allowedAttrs` but absent from the
bag forces the missing-attribute check to report something. -/
theorem firstMissingAttr_isSome (attrs : Attrs) :
    ∀ (allowed : List (String × AttributeInfo)) (k : String) (info : AttributeInfo),
      lookupAttr allowed k = some info → info.required = true →
      lookupAttr attrs k = none →
      firstMissingAttr attrs allowed ≠ none := by
  intro allowed
  induction allowed with
  | nil => intro k info h _ _; exact Option.noConfusion h
  | cons kv rest ih =>
      intro k info h hreq hmiss
      obtain ⟨k0, info0⟩ := kv
      unfold firstMissingAttr
      by_cases hk : k0 = k
      · subst hk
        unfold lookupAttr at h
        rw [if_pos rfl] at h
        injection h with h'
        subst h'
        simp [hreq, hmiss]
      · unfold lookupAttr at h
        rw [if_neg hk] at h
        by_cases hreq0 : info0.required = true
        · cases hm0 : lookupAttr attrs k0 with
          | some w =>
              simp only [hreq0, hm0, if_pos]
              exact ih k info h hreq hmiss
          | none => simp [hreq0, hm0]
        · simp only [Bool.not_eq_true] at hreq0
          simp only [hreq0]
          exact ih k info h hreq hmiss

/-- C10: an `allowedAttrs` entry left at the defaults is a required
`"String"` attribute with empty documentation, and `inputFromAttrs`
validation rejects (with an `InvalidAttribute` failure) any bag that
omits such an attribute. -/
theorem attributeInfo_defaults_required :
    (({} : AttributeInfo).type = "String" ∧ ({} : AttributeInfo).required = true ∧
      ({} : AttributeInfo).doc = "") ∧
    ∀ (s : Scheme) (attrs : Attrs) (k : String),
      lookupAttr s.allowedAttrs k = some {} →
      lookupAttr attrs k = none →
      isInvalidAttributeError (inputFromAttrs s attrs) = true := by
  refine ⟨⟨rfl, rfl, rfl⟩, ?_⟩
  intro s attrs k hall hmiss
  unfold inputFromAttrs validateAttrs
  cases hu : firstUnknownAttr s.allowedAttrs attrs with
  | some k1 => simp [hu, isInvalidAttributeError]
  | none =>
      have hne := firstMissingAttr_isSome attrs s.allowedAttrs k {} hall rfl hmiss
      cases hm : firstMissingAttr attrs s.allowedAttrs with
      | none => exact absurd hm hne
      | some k1 => simp [hu, hm, isInvalidAttributeError]

/-- Witness for C10: the path scheme declares `path` with the default
metadata, and the empty bag is rejected. -/
theorem attributeInfo_defaults_required_witness :
    lookupAttr pathScheme.allowedAttrs ("path") = some {} ∧
    lookupAttr ([] : Attrs) ("path") = none ∧
    isInvalidAttributeError (inputFromAttrs pathScheme []) = true :=
  ⟨rfl, rfl,
   attributeInfo_defaults_required.2 pathScheme [] ("path") rfl rfl⟩

end Fetchers
